import Mathlib

/-!
Verification of the vertexhub-cli input-validation and process-supervision
core (file src/unnamed/part_000 of the repository), shallowly embedded in
Lean 4.  Strings are modelled as `List Char`; JavaScript numbers appearing
in the port-validation path are modelled exactly (`Int`/`Nat`), which agrees
with the JavaScript semantics on every observable outcome of the embedded
functions since all accepted values lie far below 2^53.
-/

/-- Code points treated as whitespace by both JavaScript `String.prototype.trim`
and `parseInt` (ECMA-262 WhiteSpace plus LineTerminator). -/
def jsWhitespaceCodes : List Nat :=
  [0x09, 0x0a, 0x0b, 0x0c, 0x0d, 0x20, 0xa0, 0x1680,
   0x2000, 0x2001, 0x2002, 0x2003, 0x2004, 0x2005, 0x2006, 0x2007,
   0x2008, 0x2009, 0x200a, 0x2028, 0x2029, 0x202f, 0x205f, 0x3000, 0xfeff]

def isJsWhitespace (ch : Char) : Bool :=
  jsWhitespaceCodes.contains ch.toNat

/-- Decimal digit test, as used by `parseInt` with radix 10. -/
def isDigit (ch : Char) : Bool :=
  48 ≤ ch.toNat && ch.toNat ≤ 57

def digitVal (ch : Char) : Nat := ch.toNat - 48

/-- Model of JavaScript `String.prototype.trim`: remove leading and trailing
whitespace code points. -/
def jsTrim (s : List Char) : List Char :=
  (((s.dropWhile isJsWhitespace).reverse.dropWhile isJsWhitespace)).reverse

/-- Value of the longest digit run at the front of the list, `none` when the
list does not start with a digit (`parseInt` yields NaN in that case). -/
def decValue (l : List Char) : Nat :=
  l.foldl (fun a ch => 10 * a + digitVal ch) 0

def digitsVal (l : List Char) : Option Nat :=
  let ds := l.takeWhile isDigit
  if ds = [] then none
  else some (decValue ds)

/-- Sign-and-digits part of `parseInt`, applied after whitespace removal. -/
def jsParseIntCore : List Char → Option Int
  | [] => none
  | ch :: rest =>
    if ch = '-' then (digitsVal rest).map (fun m => -(m : Int))
    else if ch = '+' then (digitsVal rest).map (fun m => (m : Int))
    else (digitsVal (ch :: rest)).map (fun m => (m : Int))

/-- Model of JavaScript `parseInt(s, 10)`: skip leading whitespace, read an
optional sign, then the longest run of decimal digits; `none` models NaN. -/
def jsParseInt (s : List Char) : Option Int :=
  jsParseIntCore (s.dropWhile isJsWhitespace)

/-- Fuel-driven accumulator loop producing the decimal digits of `n`,
most significant first, in front of `acc`. -/
def natDecimalCore : Nat → Nat → List Char → List Char
  | 0, _, acc => acc
  | fuel + 1, n, acc =>
    let acc2 := Nat.digitChar (n % 10) :: acc
    if n / 10 = 0 then acc2 else natDecimalCore fuel (n / 10) acc2

/-- Canonical decimal string of a natural number (model of JavaScript
`String(n)` for a non-negative integer). -/
def natDecimal (n : Nat) : List Char := natDecimalCore (n + 1) n []

/-- Model of JavaScript `String(num)` for an integral number. -/
def jsStringOfInt (i : Int) : List Char :=
  if i < 0 then '-' :: natDecimal i.natAbs else natDecimal i.toNat

/-- Embedding of `sanitizePort` (src/unnamed/part_000, lines 42-49):
reject empty input (falsy), parse with `parseInt(·, 10)`, require the value
to lie in [1, 65535] and its re-stringified form to equal the trimmed
input; return the canonical string on success. -/
def sanitizePortNum : Option Int → List Char → Option (List Char)
  | none, _ => none
  | some num, port =>
    if num < 1 then none
    else if 65535 < num then none
    else if jsStringOfInt num ≠ jsTrim port then none
    else some (jsStringOfInt num)

def sanitizePort (port : List Char) : Option (List Char) :=
  if port = [] then none
  else sanitizePortNum (jsParseInt port) port

/-- Embedding of the `DEFAULT_PORT` constant (line 26). -/
def DEFAULT_PORT : List Char := "8090".toList

/-- Embedding of the `PROXY_PORT` computation (line 27):
`sanitizePort(process.env.VERTEXHUB_PORT) || DEFAULT_PORT`.  The argument is
`none` when the environment variable is unset (`sanitizePort(undefined)`
falls into the falsy branch and yields null). -/
def proxyPortOf (envVal : Option (List Char)) : List Char :=
  match envVal with
  | none => DEFAULT_PORT
  | some s =>
    match sanitizePort s with
    | none => DEFAULT_PORT
    | some p => p

/-- Embedding of the `PROXY_URL` computation (line 28). -/
def proxyUrlOf (envVal : Option (List Char)) : List Char :=
  "http://127.0.0.1:".toList ++ proxyPortOf envVal

/-- Character class removed by `sanitizeForTerminal` (line 97): the regex
ranges 0x00-0x08, 0x0b, 0x0c, 0x0e-0x1f and 0x7f. -/
def isStrippedControl (ch : Char) : Bool :=
  ch.toNat ≤ 0x08 || ch.toNat = 0x0b || ch.toNat = 0x0c ||
    (0x0e ≤ ch.toNat && ch.toNat ≤ 0x1f) || ch.toNat = 0x7f

/-- Embedding of `sanitizeForTerminal` (lines 96-98): delete every character
matched by the control-character regex, keep everything else in order. -/
def sanitizeForTerminal (s : List Char) : List Char :=
  s.filter (fun ch => !isStrippedControl ch)

/-- Embedding of the `allowedSubcommands` list of `cmdAccounts` (line 555). -/
def allowedSubcommands : List String := ["add", "list", "remove", "verify"]

/-- Embedding of the argv filter of `cmdAccounts` (line 556):
`args.filter(arg => allowedSubcommands.includes(arg))`. -/
def filterAllowedSubcommands (args : List String) : List String :=
  args.filter (fun arg => allowedSubcommands.contains arg)

/-- JSON values as produced by `JSON.parse`; numbers are modelled as
integers, which suffices for every value this code distinguishes. -/
inductive Json where
  | null : Json
  | bool : Bool → Json
  | num : Int → Json
  | str : String → Json
  | arr : List Json → Json
  | obj : List (String × Json) → Json

/-- Test for the "plain object" shape demanded by the defensive checks
`typeof v === 'object' && v !== null && !Array.isArray(v)`. -/
def Json.isObj : Json → Bool
  | .obj _ => true
  | _ => false

/-- JavaScript falsiness of a JSON value (`undefined` is handled separately
as `Option.none` where it can occur). -/
def Json.isFalsy : Json → Bool
  | .null => true
  | .bool b => !b
  | .num n => n = 0
  | .str s => s = ""
  | _ => false

/-- Property lookup on a JavaScript object: value of the first binding of
the key, `none` modelling `undefined`. -/
def jsLookup (k : String) (o : List (String × Json)) : Option Json :=
  match o.find? (fun kv => kv.1 = k) with
  | none => none
  | some kv => some kv.2

def hasKey (o : List (String × Json)) (k : String) : Bool :=
  o.any (fun kv => kv.1 = k)

/-- JavaScript property assignment `o[k] = v`: an existing key keeps its
position and gets the new value, a fresh key is appended. -/
def setKey : List (String × Json) → String → Json → List (String × Json)
  | [], k, v => [(k, v)]
  | p :: o, k, v => if p.1 = k then (k, v) :: o else p :: setKey o k v

/-- Own enumerable properties contributed by spreading a JSON value inside
an object literal: objects contribute their fields, arrays and strings
contribute index-keyed entries, primitives and null contribute nothing. -/
def jsSpreadable : Json → List (String × Json)
  | .obj fields => fields
  | .arr xs => xs.enum.map (fun p => (toString p.1, p.2))
  | .str s => s.toList.enum.map (fun p => (toString p.1, Json.str (String.mk [p.2])))
  | _ => []

/-- Sequential object-literal spread `{...base, k1: v1, ..., kn: vn}`. -/
def spreadMerge (base : List (String × Json)) (adds : List (String × Json)) :
    List (String × Json) :=
  adds.foldl (fun o kv => setKey o kv.1 kv.2) base

/-- Embedding of the settings-load normalisation in `configureClaudeSettings`
(lines 187-199): a failed `JSON.parse` (argument `none`) or any parse result
that is not a plain object is replaced by the empty object. -/
def mergeJsonObject (parsed : Option Json) : Json :=
  match parsed with
  | none => Json.obj []
  | some v => if v.isObj then v else Json.obj []

/-- The fixed `env` keys written by `configureClaudeSettings` (lines 202-211);
`ANTHROPIC_BASE_URL` carries the proxy URL computed from the environment. -/
def fixedEnv (url : String) : List (String × Json) :=
  [("ANTHROPIC_AUTH_TOKEN", Json.str "vertexhub-proxy"),
   ("ANTHROPIC_BASE_URL", Json.str url),
   ("ANTHROPIC_MODEL", Json.str "claude-opus-4-6-thinking"),
   ("ANTHROPIC_DEFAULT_OPUS_MODEL", Json.str "claude-opus-4-6-thinking"),
   ("ANTHROPIC_DEFAULT_SONNET_MODEL", Json.str "claude-sonnet-4-5-thinking"),
   ("ANTHROPIC_DEFAULT_HAIKU_MODEL", Json.str "claude-sonnet-4-5"),
   ("CLAUDE_CODE_SUBAGENT_MODEL", Json.str "claude-sonnet-4-5-thinking")]

/-- Value spread as the base of the new `env` object: `settings.env || {}`
followed by object-literal spread (lines 202-203). -/
def envOrEmpty (settings : List (String × Json)) : List (String × Json) :=
  match jsLookup "env" settings with
  | none => []
  | some v => if v.isFalsy then [] else jsSpreadable v

/-- Embedding of the settings mutation of `configureClaudeSettings`
(lines 202-213): `settings.env = { ...(settings.env || {}), ...fixed }`. -/
def configureSettingsObj (url : String) (settings : List (String × Json)) :
    List (String × Json) :=
  setKey settings "env" (Json.obj (spreadMerge (envOrEmpty settings) (fixedEnv url)))

/-- Embedding of the onboarding-flag step of `configureClaudeSettings`
(lines 230-234): when `claudeJson.hasCompletedOnboarding` is falsy (absent
or a falsy value) the flag is set to `true` and the file is rewritten; the
second component records whether a write happened. -/
def onboardingFlagTruthy : Option Json → Bool
  | none => false
  | some v => !v.isFalsy

def onboardingStep (claudeJson : List (String × Json)) :
    List (String × Json) × Bool :=
  if onboardingFlagTruthy (jsLookup "hasCompletedOnboarding" claudeJson) then
    (claudeJson, false)
  else (setKey claudeJson "hasCompletedOnboarding" (Json.bool true), true)

/-- Outcome of the startup wait loop: whether a probe succeeded, how many
probes ran, and the total time slept. -/
structure WaitOutcome where
  healthy : Bool
  probes : Nat
  elapsedMs : Nat
deriving DecidableEq

/-- Embedding of the wait loop of `cmdStart` (lines 424-432): each iteration
sleeps 1000 ms and then probes once; a successful probe breaks out, and the
loop body runs at most `fuel` times.  `probe i` is the result of the health
check during iteration `i`. -/
def waitLoop (probe : Nat → Bool) : Nat → Nat → WaitOutcome
  | _, 0 => ⟨false, 0, 0⟩
  | i, fuel + 1 =>
    if probe i then ⟨true, 1, 1000⟩
    else
      let r := waitLoop probe (i + 1) fuel
      ⟨r.healthy, r.probes + 1, r.elapsedMs + 1000⟩

/-- The concrete wait performed by `cmdStart`: 15 iterations at 1000 ms. -/
def cmdStartWait (probe : Nat → Bool) : WaitOutcome := waitLoop probe 0 15

/-- Exit outcome of the startup wait (lines 434-438): `some 1` models
`process.exit(1)` after a timeout, `none` models continuing. -/
def cmdStartExitCode (probe : Nat → Bool) : Option Nat :=
  if (cmdStartWait probe).healthy then none else some 1

/-- Insertion-ordered deduplication, the model of `[...new Set(list)]`. -/
def jsSetOfList (l : List String) : List String :=
  l.foldl (fun acc x => if acc.contains x then acc else acc ++ [x]) []

/-- Observable effects of `stopProxy` (lines 307-317): the ports whose
processes are force-killed (in order, deduplicated) and the settle delay. -/
structure StopTrace where
  freedPorts : List String
  settleDelayMs : Nat
deriving DecidableEq

/-- Embedding of `stopProxy` (lines 307-317).  `killOk` tells whether the
`fuser -k` call for a port succeeds; its failures are swallowed by the
`catch`, so the trace cannot depend on it. -/
def stopProxyTrace (proxyPort : String) (killOk : String → Bool) : StopTrace :=
  let portsToFree := jsSetOfList ["8080", proxyPort]
  let attempted := portsToFree.map (fun p => (p, killOk p))
  ⟨attempted.map (fun pr => pr.1), 2000⟩

/-! ### Helper lemmas -/

theorem digitVal_digitChar : ∀ m : Nat, m < 10 →
    digitVal (Nat.digitChar m) = m ∧ isDigit (Nat.digitChar m) = true := by
  decide

theorem ws_not_digit (ch : Char) (h : isJsWhitespace ch = true) :
    isDigit ch = false := by
  have hmem : ch.toNat ∈ jsWhitespaceCodes := by
    simpa [isJsWhitespace, List.contains, List.elem_iff] using h
  simp only [jsWhitespaceCodes, List.mem_cons, List.not_mem_nil, or_false] at hmem
  simp only [isDigit, Bool.and_eq_false_iff, decide_eq_false_iff_not, not_le]
  omega

theorem digit_not_sign (ch : Char) (h : isDigit ch = true) :
    ch ≠ '-' ∧ ch ≠ '+' := by
  constructor <;> rintro rfl <;> exact absurd h (by decide)

theorem mem_takeWhile_pred {p : Char → Bool} :
    ∀ {l : List Char} {a : Char}, a ∈ l.takeWhile p → p a = true := by
  intro l
  induction l with
  | nil => intro a ha; simp [List.takeWhile] at ha
  | cons x xs ih =>
    intro a ha
    by_cases hx : p x
    · rw [List.takeWhile_cons_of_pos hx] at ha
      rcases List.mem_cons.mp ha with rfl | hmem
      · exact hx
      · exact ih hmem
    · rw [List.takeWhile_cons_of_neg hx] at ha
      simp at ha

theorem takeWhile_append_all {p : Char → Bool} (xs ys : List Char)
    (h : ∀ a ∈ xs, p a = true) :
    (xs ++ ys).takeWhile p = xs ++ ys.takeWhile p := by
  induction xs with
  | nil => simp
  | cons x xs ih =>
    have hx : p x = true := h x (List.mem_cons_self x xs)
    simp only [List.cons_append, List.takeWhile_cons_of_pos hx]
    rw [ih (fun a ha => h a (List.mem_cons_of_mem x ha))]

theorem takeWhile_eq_nil_all_neg {p : Char → Bool} (l : List Char)
    (h : ∀ a ∈ l, p a = false) : l.takeWhile p = [] := by
  cases l with
  | nil => rfl
  | cons x xs =>
    have hx : p x = false := h x (List.mem_cons_self x xs)
    simp [List.takeWhile_cons_of_neg, hx]

theorem natDecimalCore_append (fuel : Nat) :
    ∀ (n : Nat) (acc : List Char),
      natDecimalCore fuel n acc = natDecimalCore fuel n [] ++ acc := by
  induction fuel with
  | zero => intro n acc; simp [natDecimalCore]
  | succ fuel ih =>
    intro n acc
    by_cases h : n / 10 = 0
    · simp [natDecimalCore, h]
    · simp only [natDecimalCore, h, if_false]
      rw [ih (n / 10) (Nat.digitChar (n % 10) :: acc),
          ih (n / 10) [Nat.digitChar (n % 10)]]
      simp

theorem natDecimalCore_spec (fuel : Nat) :
    ∀ n : Nat, n < fuel →
      decValue (natDecimalCore fuel n []) = n ∧
      (∀ ch ∈ natDecimalCore fuel n [], isDigit ch = true) ∧
      natDecimalCore fuel n [] ≠ [] := by
  induction fuel with
  | zero => intro n h; omega
  | succ fuel ih =>
    intro n h
    by_cases h10 : n / 10 = 0
    · have hn : n < 10 := by omega
      have hmod : n % 10 = n := by omega
      have hd := digitVal_digitChar n hn
      simp only [natDecimalCore, h10, if_true, hmod]
      refine ⟨?_, ?_, by simp⟩
      · simp [decValue, hd.1]
      · intro ch hch
        rcases List.mem_singleton.mp hch with rfl
        exact hd.2
    · have hge : 10 ≤ n := by omega
      have hlt : n / 10 < fuel := by omega
      obtain ⟨hval, hdig, hne⟩ := ih (n / 10) hlt
      have hd := digitVal_digitChar (n % 10) (by omega)
      simp only [natDecimalCore, h10, if_false]
      rw [natDecimalCore_append fuel (n / 10) [Nat.digitChar (n % 10)]]
      refine ⟨?_, ?_, by simp⟩
      · simp only [decValue, List.foldl_append] at hval ⊢
        simp [List.foldl, hval, hd.1]
        omega
      · intro ch hch
        rcases List.mem_append.mp hch with hmem | hmem
        · exact hdig ch hmem
        · rcases List.mem_singleton.mp hmem with rfl
          exact hd.2

theorem decValue_natDecimal (n : Nat) : decValue (natDecimal n) = n :=
  (natDecimalCore_spec (n + 1) n (Nat.lt_succ_self n)).1

theorem natDecimal_digits (n : Nat) :
    ∀ ch ∈ natDecimal n, isDigit ch = true :=
  (natDecimalCore_spec (n + 1) n (Nat.lt_succ_self n)).2.1

theorem natDecimal_ne_nil (n : Nat) : natDecimal n ≠ [] :=
  (natDecimalCore_spec (n + 1) n (Nat.lt_succ_self n)).2.2

theorem dropWhile_eq_trim_append (s : List Char) :
    ∃ w, s.dropWhile isJsWhitespace = jsTrim s ++ w ∧
      ∀ ch ∈ w, isJsWhitespace ch = true := by
  refine ⟨((s.dropWhile isJsWhitespace).reverse.takeWhile isJsWhitespace).reverse,
    ?_, ?_⟩
  · conv_lhs => rw [← List.reverse_reverse (s.dropWhile isJsWhitespace)]
    conv_lhs =>
      rw [← List.takeWhile_append_dropWhile isJsWhitespace
        (s.dropWhile isJsWhitespace).reverse]
    rw [List.reverse_append]
    rfl
  · intro ch hch
    exact mem_takeWhile_pred (List.mem_reverse.mp hch)

theorem jsLookup_nil (k : String) : jsLookup k [] = none := rfl

theorem jsLookup_cons (k : String) (p : String × Json) (o : List (String × Json)) :
    jsLookup k (p :: o) = if p.1 = k then some p.2 else jsLookup k o := by
  by_cases h : p.1 = k <;> simp [jsLookup, List.find?_cons, h]

theorem jsLookup_setKey_same (o : List (String × Json)) (k : String) (v : Json) :
    jsLookup k (setKey o k v) = some v := by
  induction o with
  | nil => simp [setKey, jsLookup_cons, jsLookup_nil]
  | cons p o ih =>
    by_cases hp : p.1 = k
    · simp [setKey, hp, jsLookup_cons]
    · simp [setKey, hp, jsLookup_cons, ih]

theorem jsLookup_setKey_other (o : List (String × Json)) (k k2 : String)
    (v : Json) (h : k2 ≠ k) :
    jsLookup k2 (setKey o k v) = jsLookup k2 o := by
  induction o with
  | nil => simp [setKey, jsLookup_cons, jsLookup_nil, Ne.symm h]
  | cons p o ih =>
    by_cases hp : p.1 = k
    · have hp2 : ¬(p.1 = k2) := by rw [hp]; exact Ne.symm h
      simp [setKey, hp, jsLookup_cons, Ne.symm h, hp2]
    · simp only [setKey, hp, if_false]
      rw [jsLookup_cons, jsLookup_cons, ih]

theorem hasKey_nil (k : String) : hasKey [] k = false := rfl

theorem hasKey_cons (p : String × Json) (o : List (String × Json)) (k : String) :
    hasKey (p :: o) k = (decide (p.1 = k) || hasKey o k) := by
  simp [hasKey]

theorem hasKey_setKey (o : List (String × Json)) (k k2 : String) (v : Json)
    (h : hasKey o k2 = true) : hasKey (setKey o k v) k2 = true := by
  induction o with
  | nil => simp [hasKey_nil] at h
  | cons p o ih =>
    rw [hasKey_cons] at h
    by_cases hp : p.1 = k
    · rcases Bool.or_eq_true_iff.mp h with hh | hh
      · have hpk2 : p.1 = k2 := of_decide_eq_true hh
        have hk2 : k = k2 := by rw [← hp]; exact hpk2
        simp [setKey, hp, hasKey_cons, hk2]
      · simp [setKey, hp, hasKey_cons, hh]
    · rcases Bool.or_eq_true_iff.mp h with hh | hh
      · simp [setKey, hp, hasKey_cons, hh]
      · simp [setKey, hp, hasKey_cons, ih hh]

theorem spreadMerge_nil (base : List (String × Json)) :
    spreadMerge base [] = base := rfl

theorem spreadMerge_cons (base : List (String × Json)) (kv : String × Json)
    (rest : List (String × Json)) :
    spreadMerge base (kv :: rest) = spreadMerge (setKey base kv.1 kv.2) rest := rfl

theorem hasKey_spreadMerge (adds : List (String × Json)) :
    ∀ (base : List (String × Json)) (k : String), hasKey base k = true →
      hasKey (spreadMerge base adds) k = true := by
  induction adds with
  | nil => intro base k h; rwa [spreadMerge_nil]
  | cons kv rest ih =>
    intro base k h
    rw [spreadMerge_cons]
    exact ih _ k (hasKey_setKey base kv.1 k kv.2 h)

theorem jsLookup_spreadMerge_of_not_mem (adds : List (String × Json)) :
    ∀ (base : List (String × Json)) (k : String), k ∉ adds.map Prod.fst →
      jsLookup k (spreadMerge base adds) = jsLookup k base := by
  induction adds with
  | nil => intro base k _; rw [spreadMerge_nil]
  | cons kv rest ih =>
    intro base k hk
    simp only [List.map_cons, List.mem_cons] at hk
    push_neg at hk
    rw [spreadMerge_cons, ih _ k hk.2, jsLookup_setKey_other base kv.1 k kv.2 hk.1]

theorem jsLookup_spreadMerge_of_mem (adds : List (String × Json)) :
    (adds.map Prod.fst).Nodup →
    ∀ (base : List (String × Json)), ∀ kv ∈ adds,
      jsLookup kv.1 (spreadMerge base adds) = some kv.2 := by
  induction adds with
  | nil => intro _ base kv h; simp at h
  | cons kv0 rest ih =>
    intro hnd base kv hkv
    simp only [List.map_cons, List.nodup_cons] at hnd
    rcases List.mem_cons.mp hkv with rfl | hmem
    · rw [spreadMerge_cons,
        jsLookup_spreadMerge_of_not_mem rest _ kv.1 hnd.1,
        jsLookup_setKey_same]
    · exact ih hnd.2 _ kv hmem

theorem jsParseInt_of_trim (s : List Char) (n : Nat)
    (ht : jsTrim s = natDecimal n) : jsParseInt s = some (n : Int) := by
  obtain ⟨w, hw, hws⟩ := dropWhile_eq_trim_append s
  rw [ht] at hw
  obtain ⟨d, ds, hd⟩ : ∃ d ds, natDecimal n = d :: ds := by
    cases hnd : natDecimal n with
    | nil => exact absurd hnd (natDecimal_ne_nil n)
    | cons d ds => exact ⟨d, ds, rfl⟩
  have hdigits := natDecimal_digits n
  have hdd : isDigit d = true := hdigits d (by rw [hd]; exact List.mem_cons_self d ds)
  have hsign := digit_not_sign d hdd
  have ht2 : s.dropWhile isJsWhitespace = d :: (ds ++ w) := by
    rw [hw, hd]; simp
  have htake : (d :: (ds ++ w)).takeWhile isDigit = natDecimal n := by
    have hsplit : d :: (ds ++ w) = (d :: ds) ++ w := by simp
    rw [hsplit,
      takeWhile_append_all (d :: ds) w (fun a ha => hdigits a (by rw [hd]; exact ha)),
      takeWhile_eq_nil_all_neg w (fun a ha => ws_not_digit a (hws a ha)),
      List.append_nil, hd]
  have hval : digitsVal (d :: (ds ++ w)) = some n := by
    unfold digitsVal
    simp only [htake]
    rw [if_neg (natDecimal_ne_nil n), decValue_natDecimal]
  unfold jsParseInt
  rw [ht2]
  simp only [jsParseIntCore]
  rw [if_neg hsign.1, if_neg hsign.2, hval]
  rfl

theorem sanitizePort_accepts (s : List Char) (n : Nat) (h1 : 1 ≤ n)
    (h2 : n ≤ 65535) (ht : jsTrim s = natDecimal n) :
    sanitizePort s = some (natDecimal n) := by
  have hparse := jsParseInt_of_trim s n ht
  have hsne : s ≠ [] := by
    intro h0
    rw [h0] at hparse
    simp [jsParseInt, jsParseIntCore, List.dropWhile] at hparse
  have htn : ((n : Int)).toNat = n := by omega
  have hstr : jsStringOfInt (n : Int) = natDecimal n := by
    unfold jsStringOfInt
    rw [if_neg (by omega), htn]
  unfold sanitizePort
  rw [if_neg hsne, hparse]
  simp only [sanitizePortNum]
  rw [if_neg (by omega : ¬((n : Int) < 1)),
      if_neg (by omega : ¬((65535 : Int) < (n : Int)))]
  rw [hstr, ht]
  simp

theorem sanitizePort_some (s r : List Char) (h : sanitizePort s = some r) :
    ∃ n : Nat, 1 ≤ n ∧ n ≤ 65535 ∧ jsTrim s = natDecimal n := by
  by_cases hs : s = []
  · simp [sanitizePort, hs] at h
  · rw [sanitizePort, if_neg hs] at h
    cases hp : jsParseInt s with
    | none => rw [hp] at h; exact absurd h (by simp [sanitizePortNum])
    | some num =>
      rw [hp] at h
      simp only [sanitizePortNum] at h
      split_ifs at h with h1 h2 h3
      refine ⟨num.toNat, by omega, by omega, ?_⟩
      have hstr : jsStringOfInt num = natDecimal num.toNat := by
        unfold jsStringOfInt
        rw [if_neg (by omega)]
      rw [← hstr]
      exact (not_ne_iff.mp h3).symm

theorem waitLoop_never (probe : Nat → Bool) (hp : ∀ i, probe i = false) :
    ∀ (fuel i : Nat), waitLoop probe i fuel =
      ⟨false, fuel, 1000 * fuel⟩ := by
  intro fuel
  induction fuel with
  | zero => intro i; rfl
  | succ fuel ih =>
    intro i
    simp only [waitLoop, hp i, if_false, ih (i + 1), Bool.false_eq_true,
      WaitOutcome.mk.injEq, true_and]
    omega

theorem waitLoop_first_success (probe : Nat → Bool) (j : Nat)
    (hj : probe j = true) (hbefore : ∀ k, k < j → probe k = false) :
    ∀ (fuel i : Nat), i ≤ j → j < i + fuel →
      waitLoop probe i fuel = ⟨true, j + 1 - i, 1000 * (j + 1 - i)⟩ := by
  intro fuel
  induction fuel with
  | zero => intro i h1 h2; omega
  | succ fuel ih =>
    intro i h1 h2
    by_cases hij : i = j
    · subst hij
      simp only [waitLoop, hj, if_true, WaitOutcome.mk.injEq, true_and]
      omega
    · have hlt : i < j := by omega
      simp only [waitLoop, hbefore i hlt, if_false, Bool.false_eq_true,
        ih (i + 1) (by omega) (by omega), WaitOutcome.mk.injEq, true_and]
      omega

/-! ### Claim theorems -/

/-- C1: for every string `s`, `sanitizePort s` returns a value if and only if
the trimmed input is the canonical decimal string of an integer in
[1, 65535]; in particular "8090" and "65535" are accepted while "08080",
"3.14", "-1" and "0" are rejected. -/
theorem claim_C1_sanitizePort_iff :
    (∀ s : List Char, (sanitizePort s).isSome = true ↔
      ∃ n : Nat, 1 ≤ n ∧ n ≤ 65535 ∧ jsTrim s = natDecimal n) ∧
    sanitizePort "8090".toList = some "8090".toList ∧
    sanitizePort "65535".toList = some "65535".toList ∧
    sanitizePort "08080".toList = none ∧
    sanitizePort "3.14".toList = none ∧
    sanitizePort "-1".toList = none ∧
    sanitizePort "0".toList = none := by
  refine ⟨?_, by decide, by decide, by decide, by decide, by decide, by decide⟩
  intro s
  constructor
  · intro h
    obtain ⟨r, hr⟩ := Option.isSome_iff_exists.mp h
    exact sanitizePort_some s r hr
  · rintro ⟨n, h1, h2, h3⟩
    rw [sanitizePort_accepts s n h1 h2 h3]
    rfl

/-- C2 (counterexample): the claim says `sanitizePort " 80 "` returns none,
but the code trims before the round-trip comparison and accepts it. -/
theorem claim_C2_counterexample : sanitizePort " 80 ".toList ≠ none := by
  decide

/-- C2 (amended): `sanitizePort " 80 "` returns the trimmed canonical port
string "80"; whitespace around a canonical numeral is accepted. -/
theorem claim_C2_amended : sanitizePort " 80 ".toList = some "80".toList := by
  decide

/-- C3: every environment value that fails port validation — including the
injection string "8080; rm -rf /", the unset variable and the empty string —
makes the effective port and the proxy URL fall back to the default 8090,
with no error. -/
theorem claim_C3_port_fallback :
    (∀ v : Option (List Char),
      (v = none ∨ ∃ s, v = some s ∧ sanitizePort s = none) →
      proxyPortOf v = DEFAULT_PORT ∧
      proxyUrlOf v = "http://127.0.0.1:8090".toList) ∧
    proxyPortOf (some "8080; rm -rf /".toList) = "8090".toList ∧
    proxyPortOf none = "8090".toList ∧
    proxyPortOf (some "".toList) = "8090".toList := by
  refine ⟨?_, by decide, by decide, by decide⟩
  rintro v (rfl | ⟨s, rfl, hs⟩)
  · exact ⟨rfl, by decide⟩
  · have hport : proxyPortOf (some s) = DEFAULT_PORT := by
      simp [proxyPortOf, hs]
    refine ⟨hport, ?_⟩
    unfold proxyUrlOf
    rw [hport]
    decide

/-- C3 (witness): instantiation at the injection string "8080; rm -rf /". -/
theorem claim_C3_witness :
    proxyPortOf (some "8080; rm -rf /".toList) = DEFAULT_PORT ∧
    proxyUrlOf (some "8080; rm -rf /".toList) = "http://127.0.0.1:8090".toList :=
  claim_C3_port_fallback.1 (some "8080; rm -rf /".toList)
    (Or.inr ⟨"8080; rm -rf /".toList, rfl, by decide⟩)

/-- C4: the accounts argv filter keeps exactly the arguments in the fixed
allow-list {add, list, remove, verify}, in their original order, dropping
everything else; on ["add","rm","list","DROP"] it yields ["add","list"]. -/
theorem claim_C4_filterAllowed :
    filterAllowedSubcommands ["add", "rm", "list", "DROP"] = ["add", "list"] ∧
    (∀ args : List String, (filterAllowedSubcommands args).Sublist args) ∧
    (∀ (args : List String) (x : String),
      x ∈ filterAllowedSubcommands args ↔ x ∈ args ∧ x ∈ allowedSubcommands) ∧
    (∀ (args : List String) (x : String),
      List.count x (filterAllowedSubcommands args) =
        if x ∈ allowedSubcommands then List.count x args else 0) := by
  refine ⟨by decide, ?_, ?_, ?_⟩
  · intro args
    exact List.filter_sublist args
  · intro args x
    simp [filterAllowedSubcommands, List.mem_filter, List.contains, List.elem_iff]
  · intro args x
    by_cases hx : x ∈ allowedSubcommands
    · rw [if_pos hx]
      exact List.count_filter (by simp [List.contains, List.elem_iff, hx])
    · rw [if_neg hx]
      rw [List.count_eq_zero]
      intro hmem
      rcases List.mem_filter.mp hmem with ⟨_, hc⟩
      exact hx (List.elem_iff.mp hc)

/-- C5: the settings-load normalisation is total and always yields a plain
object: a failed parse or a parse result that is not a plain object (null,
an array such as [1,2,3], or a primitive) is replaced by the empty object. -/
theorem claim_C5_mergeJsonObject :
    (∀ p : Option Json, (mergeJsonObject p).isObj = true) ∧
    mergeJsonObject none = Json.obj [] ∧
    (∀ v : Json, v.isObj = false → mergeJsonObject (some v) = Json.obj []) ∧
    mergeJsonObject (some (Json.arr [Json.num 1, Json.num 2, Json.num 3])) =
      Json.obj [] ∧
    mergeJsonObject (some Json.null) = Json.obj [] := by
  refine ⟨?_, rfl, ?_, rfl, rfl⟩
  · intro p
    cases p with
    | none => rfl
    | some v =>
      simp only [mergeJsonObject]
      by_cases hv : v.isObj
      · rw [if_pos hv]; exact hv
      · rw [if_neg hv]; rfl
  · intro v hv
    simp only [mergeJsonObject]
    rw [if_neg (by simp [hv])]

/-- C5 (witness): instantiation at the non-object value `[]`. -/
theorem claim_C5_witness :
    Json.isObj (Json.arr []) = false ∧
    mergeJsonObject (some (Json.arr [])) = Json.obj [] :=
  ⟨rfl, claim_C5_mergeJsonObject.2.2.1 (Json.arr []) rfl⟩

/-- C6: the settings write-back leaves every top-level key other than `env`
unchanged, keeps every pre-existing key of an `env` sub-object present in
the new `env` map, and the new `env` map binds every fixed key to its merged
value. -/
theorem claim_C6_settings_frame (url : String)
    (settings newEnv : List (String × Json))
    (hnew : jsLookup "env" (configureSettingsObj url settings) =
      some (Json.obj newEnv)) :
    (∀ k : String, k ≠ "env" →
      jsLookup k (configureSettingsObj url settings) = jsLookup k settings) ∧
    (∀ e : List (String × Json), jsLookup "env" settings = some (Json.obj e) →
      ∀ k : String, hasKey e k = true → hasKey newEnv k = true) ∧
    (∀ kv ∈ fixedEnv url, jsLookup kv.1 newEnv = some kv.2) := by
  have hset : jsLookup "env" (configureSettingsObj url settings) =
      some (Json.obj (spreadMerge (envOrEmpty settings) (fixedEnv url))) := by
    unfold configureSettingsObj
    exact jsLookup_setKey_same settings "env" _
  rw [hset] at hnew
  simp only [Option.some.injEq, Json.obj.injEq] at hnew
  subst hnew
  refine ⟨?_, ?_, ?_⟩
  · intro k hk
    unfold configureSettingsObj
    exact jsLookup_setKey_other settings "env" k _ hk
  · intro e he k hk
    have henv : envOrEmpty settings = e := by
      simp [envOrEmpty, he, Json.isFalsy, jsSpreadable]
    rw [henv]
    exact hasKey_spreadMerge (fixedEnv url) e k hk
  · intro kv hkv
    refine jsLookup_spreadMerge_of_mem (fixedEnv url) ?_ (envOrEmpty settings) kv hkv
    have hkeys : (fixedEnv url).map Prod.fst =
        ["ANTHROPIC_AUTH_TOKEN", "ANTHROPIC_BASE_URL", "ANTHROPIC_MODEL",
         "ANTHROPIC_DEFAULT_OPUS_MODEL", "ANTHROPIC_DEFAULT_SONNET_MODEL",
         "ANTHROPIC_DEFAULT_HAIKU_MODEL", "CLAUDE_CODE_SUBAGENT_MODEL"] := rfl
    rw [hkeys]
    decide

/-- C6 (witness): instantiation at a settings object with an unrelated key
`foo` and a pre-existing `env` key `X`. -/
theorem claim_C6_witness :
    jsLookup "foo"
        (configureSettingsObj "http://127.0.0.1:8090"
          [("foo", Json.str "bar"), ("env", Json.obj [("X", Json.num 1)])]) =
      jsLookup "foo"
        [("foo", Json.str "bar"), ("env", Json.obj [("X", Json.num 1)])] ∧
    hasKey
      (spreadMerge
        (envOrEmpty [("foo", Json.str "bar"), ("env", Json.obj [("X", Json.num 1)])])
        (fixedEnv "http://127.0.0.1:8090")) "X" = true ∧
    jsLookup "ANTHROPIC_BASE_URL"
      (spreadMerge
        (envOrEmpty [("foo", Json.str "bar"), ("env", Json.obj [("X", Json.num 1)])])
        (fixedEnv "http://127.0.0.1:8090")) =
      some (Json.str "http://127.0.0.1:8090") := by
  have h := claim_C6_settings_frame "http://127.0.0.1:8090"
    [("foo", Json.str "bar"), ("env", Json.obj [("X", Json.num 1)])]
    (spreadMerge
      (envOrEmpty [("foo", Json.str "bar"), ("env", Json.obj [("X", Json.num 1)])])
      (fixedEnv "http://127.0.0.1:8090")) rfl
  refine ⟨h.1 "foo" (by decide), h.2.1 [("X", Json.num 1)] rfl "X" rfl, ?_⟩
  exact h.2.2 ("ANTHROPIC_BASE_URL", Json.str "http://127.0.0.1:8090")
    (List.mem_cons_of_mem _ (List.mem_cons_self _ _))

/-- C7: if no probe ever succeeds, the startup wait performs exactly 15
probes with 1000 ms of sleep before each (15000 ms total) and the CLI then
exits with code 1; a first successful probe at attempt index j ends the loop
immediately after j+1 probes, and no exit is triggered. -/
theorem claim_C7_wait :
    (∀ probe : Nat → Bool, (∀ i, probe i = false) →
      cmdStartWait probe = ⟨false, 15, 15000⟩ ∧
      cmdStartExitCode probe = some 1) ∧
    (∀ (probe : Nat → Bool) (j : Nat), j < 15 → probe j = true →
      (∀ k, k < j → probe k = false) →
      cmdStartWait probe = ⟨true, j + 1, 1000 * (j + 1)⟩ ∧
      cmdStartExitCode probe = none) := by
  constructor
  · intro probe hp
    have h := waitLoop_never probe hp 15 0
    have h2 : cmdStartWait probe = ⟨false, 15, 15000⟩ := by
      rw [cmdStartWait, h]
    refine ⟨h2, ?_⟩
    unfold cmdStartExitCode
    rw [h2]
    rfl
  · intro probe j hj hpj hbef
    have h := waitLoop_first_success probe j hpj hbef 15 0 (by omega) (by omega)
    have h2 : cmdStartWait probe = ⟨true, j + 1, 1000 * (j + 1)⟩ := by
      rw [cmdStartWait, h]
      simp
    refine ⟨h2, ?_⟩
    unfold cmdStartExitCode
    rw [h2]
    rfl

/-- C7 (witness): instantiation at a never-healthy probe and at a probe that
first succeeds on attempt index 3. -/
theorem claim_C7_witness :
    cmdStartWait (fun _ => false) = ⟨false, 15, 15000⟩ ∧
    cmdStartExitCode (fun _ => false) = some 1 ∧
    cmdStartWait (fun i => decide (i = 3)) = ⟨true, 3 + 1, 1000 * (3 + 1)⟩ ∧
    cmdStartExitCode (fun i => decide (i = 3)) = none := by
  refine ⟨(claim_C7_wait.1 (fun _ => false) (fun _ => rfl)).1,
          (claim_C7_wait.1 (fun _ => false) (fun _ => rfl)).2, ?_, ?_⟩
  · exact (claim_C7_wait.2 (fun i => decide (i = 3)) 3 (by omega) (by decide)
      (by decide)).1
  · exact (claim_C7_wait.2 (fun i => decide (i = 3)) 3 (by omega) (by decide)
      (by decide)).2

/-- C8: `sanitizeForTerminal` is idempotent, its output is an in-order
subsequence of its input, and a character outside the stripped control
ranges is never removed (its multiplicity is preserved). -/
theorem claim_C8_sanitizeForTerminal :
    (∀ s : List Char,
      sanitizeForTerminal (sanitizeForTerminal s) = sanitizeForTerminal s) ∧
    (∀ s : List Char, (sanitizeForTerminal s).Sublist s) ∧
    (∀ (s : List Char) (ch : Char),
      List.count ch (sanitizeForTerminal s) =
        if isStrippedControl ch = true then 0 else List.count ch s) := by
  refine ⟨?_, ?_, ?_⟩
  · intro s
    simp [sanitizeForTerminal, List.filter_filter]
  · intro s
    exact List.filter_sublist s
  · intro s ch
    by_cases hch : isStrippedControl ch = true
    · rw [if_pos hch, List.count_eq_zero]
      intro hmem
      rcases List.mem_filter.mp hmem with ⟨_, hc⟩
      rw [hch] at hc
      simp at hc
    · rw [if_neg hch]
      exact List.count_filter (by simp [Bool.not_eq_true] at hch ⊢; exact hch)

/-- C9 (counterexample): with `hasCompletedOnboarding` present but `false`,
the code modifies the flag to `true` and rewrites the file, so "set only if
absent, present implies untouched" fails. -/
theorem claim_C9_counterexample :
    jsLookup "hasCompletedOnboarding"
        [("hasCompletedOnboarding", Json.bool false)] =
      some (Json.bool false) ∧
    (onboardingStep [("hasCompletedOnboarding", Json.bool false)]).2 = true ∧
    jsLookup "hasCompletedOnboarding"
        (onboardingStep [("hasCompletedOnboarding", Json.bool false)]).1 =
      some (Json.bool true) :=
  ⟨rfl, rfl, rfl⟩

/-- C9 (amended): the flag is set only when it is absent or holds a falsy
value; when it is present with a truthy value the document is unchanged and
the file is not rewritten, otherwise the flag becomes `true` and the file is
rewritten. -/
theorem claim_C9_amended :
    (∀ (o : List (String × Json)) (v : Json),
      jsLookup "hasCompletedOnboarding" o = some v → v.isFalsy = false →
      onboardingStep o = (o, false)) ∧
    (∀ o : List (String × Json),
      (jsLookup "hasCompletedOnboarding" o = none ∨
        ∃ v, jsLookup "hasCompletedOnboarding" o = some v ∧ v.isFalsy = true) →
      (onboardingStep o).2 = true ∧
      jsLookup "hasCompletedOnboarding" (onboardingStep o).1 =
        some (Json.bool true)) := by
  constructor
  · intro o v hv hf
    unfold onboardingStep
    rw [hv]
    simp [onboardingFlagTruthy, hf]
  · rintro o (hnone | ⟨v, hv, hf⟩)
    · unfold onboardingStep
      rw [hnone]
      simp [onboardingFlagTruthy, jsLookup_setKey_same]
    · unfold onboardingStep
      rw [hv]
      simp [onboardingFlagTruthy, hf, jsLookup_setKey_same]

/-- C9 (witness): instantiation at a document with a truthy flag and at the
empty document. -/
theorem claim_C9_witness :
    onboardingStep [("hasCompletedOnboarding", Json.bool true)] =
      ([("hasCompletedOnboarding", Json.bool true)], false) ∧
    (onboardingStep []).2 = true ∧
    jsLookup "hasCompletedOnboarding" (onboardingStep []).1 =
      some (Json.bool true) := by
  refine ⟨claim_C9_amended.1 [("hasCompletedOnboarding", Json.bool true)]
    (Json.bool true) rfl rfl, ?_, ?_⟩
  · exact (claim_C9_amended.2 [] (Or.inl rfl)).1
  · exact (claim_C9_amended.2 [] (Or.inl rfl)).2

/-- C10: `stopProxy` force-frees exactly the insertion-ordered deduplicated
set of ports {"8080", configured port} — so 8080 is always targeted — then
waits a fixed 2000 ms settle delay, and the outcome of the kill commands
cannot influence the behaviour (failures are swallowed). -/
theorem claim_C10_stopProxy :
    (∀ (p : String) (killOk : String → Bool),
      stopProxyTrace p killOk = ⟨jsSetOfList ["8080", p], 2000⟩ ∧
      "8080" ∈ (stopProxyTrace p killOk).freedPorts ∧
      ∀ killOk2 : String → Bool,
        stopProxyTrace p killOk = stopProxyTrace p killOk2) ∧
    (stopProxyTrace "8090" (fun _ => true)).freedPorts = ["8080", "8090"] ∧
    (stopProxyTrace "8080" (fun _ => true)).freedPorts = ["8080"] := by
  have htrace : ∀ (p : String) (killOk : String → Bool),
      stopProxyTrace p killOk = ⟨jsSetOfList ["8080", p], 2000⟩ := by
    intro p killOk
    simp [stopProxyTrace, List.map_map, Function.comp_def]
  have hred : ∀ p : String, jsSetOfList ["8080", p] =
      if (["8080"] : List String).contains p then ["8080"] else ["8080", p] := by
    intro p
    rfl
  refine ⟨?_, by decide, by decide⟩
  intro p killOk
  refine ⟨htrace p killOk, ?_, fun killOk2 => (htrace p killOk).trans
    (htrace p killOk2).symm⟩
  rw [htrace p killOk]
  show "8080" ∈ jsSetOfList ["8080", p]
  rw [hred p]
  by_cases hc : (["8080"] : List String).contains p
  · rw [if_pos hc]; exact List.mem_singleton.mpr rfl
  · rw [if_neg hc]; exact List.mem_cons_self _ _
